import Mathlib

/-!
Verification of the chain state addressing and codec layer of the
stake-plus account-manager balance monitor.

The Go source is shallowly embedded: byte buffers become `List Nat`
(every element of a real buffer is `< 256`, since Go's `byte` is `uint8`),
Go `*big.Int` values become `Int`/`Nat`, fallible functions return
`Except`, and the stateful reconciliation step is embedded as a pure
function from its inputs to a record of its database/notifier effects.
-/

namespace AccountMonitor

/-- little-endian byte serialisation of `v` into exactly `k` bytes
(the embedding of Go's `binary.LittleEndian.PutUintN`; bits beyond
`8*k` are dropped, matching the fixed-width store). -/
def leBytes : Nat → Nat → List Nat
  | 0, _ => []
  | k + 1, v => v % 256 :: leBytes k (v / 256)

/-- little-endian reconstruction of a byte list into a number
(the embedding of Go's `binary.LittleEndian.UintN`). -/
def leVal (bs : List Nat) : Nat :=
  bs.foldr (fun b acc => b + 256 * acc) 0

@[simp] theorem leBytes_length (k v : Nat) : (leBytes k v).length = k := by
  induction k generalizing v with
  | zero => rfl
  | succ k ih => simp [leBytes, ih]

theorem leVal_leBytes (k v : Nat) : leVal (leBytes k v) = v % 256 ^ k := by
  induction k generalizing v with
  | zero => simp [leBytes, leVal, Nat.mod_one]
  | succ k ih =>
    have h256 : (256 : Nat) ^ (k + 1) = 256 * 256 ^ k := by ring
    simp only [leBytes, leVal, List.foldr] at *
    rw [ih (v / 256), h256, Nat.mod_mul]

@[simp] theorem leVal_nil : leVal [] = 0 := rfl

@[simp] theorem leVal_cons (b : Nat) (bs : List Nat) :
    leVal (b :: bs) = b + 256 * leVal bs := rfl

/-! ## SS58 address codec

`decodeSS58Address` (networks/manager.go): given the base58-decoded
buffer, accept total length 35 (1-byte network prefix byte) or 36
(2-byte), then return the 32 bytes following the prefix bytes. The
base58 decoding itself is performed by an external library and is not
part of this layer; the embedding starts from the decoded buffer. -/

inductive SS58Error where
  | invalidLength : SS58Error
  | truncated : SS58Error
  deriving DecidableEq, Repr

/-- embedding of `decodeSS58Address` from the base58-decoded buffer on:
choose the public-key start offset from the total length, reject other
lengths, guard that 32 bytes remain, and copy those 32 bytes. -/
def decodeSS58Address (decoded : List Nat) : Except SS58Error (List Nat) :=
  let pubkeyStart : Option Nat :=
    if decoded.length = 35 then some 1
    else if decoded.length = 36 then some 2
    else none
  match pubkeyStart with
  | none => .error .invalidLength
  | some s =>
      if decoded.length < s + 32 then .error .truncated
      else .ok ((decoded.drop s).take 32)

/-- C4: for every base58-decoded buffer of length 35 the decoder returns
exactly the 32 bytes after the 1-byte prefix, for length 36 exactly the
32 bytes after the 2-byte prefix, and for every other length it fails
with the invalid-length error. -/
theorem ss58_decode_extracts_middle_32 (decoded : List Nat) :
    decodeSS58Address decoded =
      if decoded.length = 35 then .ok ((decoded.drop 1).take 32)
      else if decoded.length = 36 then .ok ((decoded.drop 2).take 32)
      else .error SS58Error.invalidLength := by
  unfold decodeSS58Address
  by_cases h35 : decoded.length = 35
  · simp [h35]
  · by_cases h36 : decoded.length = 36
    · simp [h35, h36]
    · simp [h35, h36]

/-- C10: the secondary truncation guard in the SS58 decoder is
unreachable — no input buffer ever makes `decodeSS58Address` return the
`truncated` error, because both accepted lengths leave exactly 32 bytes
after the prefix. -/
theorem ss58_truncated_unreachable (decoded : List Nat) :
    decodeSS58Address decoded ≠ .error SS58Error.truncated := by
  unfold decodeSS58Address
  by_cases h35 : decoded.length = 35
  · simp [h35]
  · by_cases h36 : decoded.length = 36
    · simp [h35, h36]
    · simp [h35, h36]

/-! ## SCALE compact-integer decoder

`decodeCompact` (networks/manager.go): the first byte's low two bits
select the mode; modes 0/1/2 consume 1/2/4 bytes, mode 3 consumes
`(firstByte >> 2) + 4` extra bytes but honours only the low 8 of them
(the accumulator is a `uint64`). Any insufficient buffer yields
`(0, 0)`. Byte values in a real buffer are `< 256`. -/

/-- embedding of `decodeCompact`: returns `(value, bytesConsumed)`. -/
def decodeCompact (data : List Nat) : Nat × Nat :=
  match data with
  | [] => (0, 0)
  | b0 :: rest =>
    if b0 % 4 = 0 then (b0 / 4, 1)
    else if b0 % 4 = 1 then
      match rest with
      | [] => (0, 0)
      | b1 :: _ => ((b0 + 256 * b1) / 4, 2)
    else if b0 % 4 = 2 then
      match rest with
      | b1 :: b2 :: b3 :: _ =>
          ((b0 + 256 * b1 + 65536 * b2 + 16777216 * b3) / 4, 4)
      | _ => (0, 0)
    else
      let n := b0 / 4 + 4
      if rest.length < n then (0, 0)
      else (leVal (rest.take (min n 8)), n + 1)

/-- number of whole bytes needed to store `v` (used by the mode-3
encoder below). -/
def byteLen (v : Nat) : Nat := (Nat.size v + 7) / 8

/-- Modelled from the spec: the standard SCALE compact encoding that
`decodeCompact` is meant to invert — mode 0 for values `< 2^6`, mode 1
(2 bytes little-endian) for `< 2^14`, mode 2 (4 bytes little-endian)
for `< 2^30`, and mode 3 (length byte plus minimal little-endian
magnitude) beyond. The repository contains no encoder; this definition
exists only to state the round-trip property. -/
def scaleEncodeCompact (v : Nat) : List Nat :=
  if v < 64 then [4 * v]
  else if v < 16384 then
    [(4 * v + 1) % 256, (4 * v + 1) / 256]
  else if v < 1073741824 then
    [(4 * v + 2) % 256, (4 * v + 2) / 256 % 256,
     (4 * v + 2) / 65536 % 256, (4 * v + 2) / 16777216 % 256]
  else (4 * (byteLen v - 4) + 3) :: leBytes (byteLen v) v

/-- number of buffer bytes the mode selected by first byte `b0`
requires (including `b0` itself). -/
def requiredLen (b0 : Nat) : Nat :=
  if b0 % 4 = 0 then 1
  else if b0 % 4 = 1 then 2
  else if b0 % 4 = 2 then 4
  else b0 / 4 + 5

theorem leBytes_take (k m v : Nat) :
    (leBytes m v).take k = leBytes (min k m) v := by
  induction m generalizing k v with
  | zero => simp [leBytes]
  | succ m ih =>
    cases k with
    | zero => simp [leBytes]
    | succ k => simp [leBytes, List.take, ih, Nat.succ_min_succ]

theorem byteLen_spec (v : Nat) : v < 256 ^ byteLen v := by
  have h1 : Nat.size v ≤ 8 * byteLen v := by
    unfold byteLen; omega
  have h2 : v < 2 ^ Nat.size v := Nat.lt_size_self v
  calc v < 2 ^ Nat.size v := h2
    _ ≤ 2 ^ (8 * byteLen v) := Nat.pow_le_pow_right (by norm_num) h1
    _ = 256 ^ byteLen v := by rw [pow_mul]; norm_num

/-- decoding an encoded value, with arbitrary trailing bytes, recovers
the value modulo `2^64` and reports the encoded length as consumed. -/
theorem decodeCompact_encode_append (v : Nat) (hv : v < 2 ^ 536)
    (rest : List Nat) :
    decodeCompact (scaleEncodeCompact v ++ rest) =
      (v % 2 ^ 64, (scaleEncodeCompact v).length) := by
  by_cases h0 : v < 64
  · simp only [scaleEncodeCompact, if_pos h0, List.cons_append, List.nil_append,
      decodeCompact, List.length_cons, List.length_nil]
    have : 4 * v % 4 = 0 := by omega
    simp [this]
    omega
  · by_cases h1 : v < 16384
    · simp only [scaleEncodeCompact, if_neg h0, if_pos h1, List.cons_append,
        List.nil_append, decodeCompact, List.length_cons, List.length_nil]
      have hm : (4 * v + 1) % 256 % 4 = 1 := by omega
      simp [hm]
      omega
    · by_cases h2 : v < 1073741824
      · simp only [scaleEncodeCompact, if_neg h0, if_neg h1, if_pos h2,
          List.cons_append, List.nil_append, decodeCompact, List.length_cons,
          List.length_nil]
        have hm : (4 * v + 2) % 256 % 4 = 2 := by omega
        simp [hm]
        omega
      · -- mode 3
        have hbl : 4 ≤ byteLen v := by
          have : (30 : Nat) < Nat.size v := Nat.lt_size.mpr (by omega)
          unfold byteLen; omega
        set m := byteLen v with hm
        have hb0 : (4 * (m - 4) + 3) % 4 = 3 := by omega
        simp only [scaleEncodeCompact, if_neg h0, if_neg h1, if_neg h2,
          List.cons_append, decodeCompact, List.length_cons]
        have hb0' : ¬(4 * (m - 4) + 3) % 4 = 0 := by omega
        have hb1' : ¬(4 * (m - 4) + 3) % 4 = 1 := by omega
        have hb2' : ¬(4 * (m - 4) + 3) % 4 = 2 := by omega
        simp only [if_neg hb0', if_neg hb1', if_neg hb2']
        have hdiv : (4 * (m - 4) + 3) / 4 + 4 = m := by omega
        rw [hdiv]
        have hlen : (leBytes m v ++ rest).length = m + rest.length := by
          simp
        have hshort : ¬(leBytes m v ++ rest).length < m := by omega
        simp only [if_neg hshort]
        have htake : (leBytes m v ++ rest).take (min m 8) =
            leBytes (min m 8) v := by
          rw [List.take_append_of_le_length
            (by rw [leBytes_length]; exact Nat.min_le_left m 8), leBytes_take]
          congr 1
          omega
        rw [htake]
        have hval : leVal (leBytes (min m 8) v) = v % 256 ^ min m 8 :=
          leVal_leBytes _ v
        rw [hval]
        simp only [Prod.mk.injEq, leBytes_length]
        constructor
        · by_cases hm8 : m ≤ 8
          · have hmin : m ⊓ 8 = m := by omega
            rw [hmin]
            have hv' : v < 256 ^ m := byteLen_spec v
            have h64 : (256 : Nat) ^ m ≤ 256 ^ 8 :=
              Nat.pow_le_pow_right (by norm_num) hm8
            have h2v : v < 2 ^ 64 := by
              have h88 : (256 : Nat) ^ 8 = 2 ^ 64 := by norm_num
              omega
            rw [Nat.mod_eq_of_lt hv', Nat.mod_eq_of_lt h2v]
          · have hmin : m ⊓ 8 = 8 := by omega
            rw [hmin]
            norm_num
        · trivial

/-- C5: the compact-integer decoder round-trips every standard SCALE
encoding — for values below `2^30` (modes 0–2) exactly, consuming the
mode's 1, 2 or 4 bytes; in mode 3 it recovers the value modulo `2^64`
(exact up to `2^64 - 1`, silently truncated to the low 8 bytes beyond),
consuming the full declared length — and it returns `(0, 0)` whenever
the buffer is shorter than the selected mode requires. -/
theorem compact_decoder_roundtrip :
    (∀ v : Nat, v < 2 ^ 536 →
      decodeCompact (scaleEncodeCompact v) =
        (v % 2 ^ 64, (scaleEncodeCompact v).length)
      ∧ (scaleEncodeCompact v).length =
          (if v < 64 then 1 else if v < 16384 then 2
           else if v < 1073741824 then 4 else byteLen v + 1))
    ∧ (∀ (b0 : Nat) (rest : List Nat), rest.length + 1 < requiredLen b0 →
        decodeCompact (b0 :: rest) = (0, 0))
    ∧ decodeCompact [] = (0, 0) := by
  refine ⟨fun v hv => ⟨?_, ?_⟩, fun b0 rest h => ?_, rfl⟩
  · have := decodeCompact_encode_append v hv []
    simpa using this
  · unfold scaleEncodeCompact
    by_cases h0 : v < 64
    · simp [h0]
    · by_cases h1 : v < 16384
      · simp [h0, h1]
      · by_cases h2 : v < 1073741824
        · simp [h0, h1, h2]
        · simp [h0, h1, h2]
  · unfold requiredLen at h
    have h4 : b0 % 4 = 0 ∨ b0 % 4 = 1 ∨ b0 % 4 = 2 ∨ b0 % 4 = 3 := by omega
    rcases h4 with hf | hf | hf | hf
    · simp [hf] at h
    · simp only [hf] at h
      norm_num at h
      have : rest = [] := by
        cases rest with
        | nil => rfl
        | cons a t => simp only [List.length_cons] at h; omega
      subst this
      simp [decodeCompact, hf]
    · simp only [hf] at h
      norm_num at h
      match rest, h with
      | [], _ => simp [decodeCompact, hf]
      | [a], _ => simp [decodeCompact, hf]
      | [a, b], _ => simp [decodeCompact, hf]
    · simp only [hf] at h
      norm_num at h
      have hshort : rest.length < b0 / 4 + 4 := by omega
      simp [decodeCompact, hf, hshort]

/-- witness for C5 at concrete inputs: the two-byte mode round-trips
`300` and a mode-1 buffer of a single byte is rejected as `(0, 0)`. -/
theorem compact_decoder_roundtrip_witness :
    decodeCompact (scaleEncodeCompact 300) =
      (300 % 2 ^ 64, (scaleEncodeCompact 300).length)
    ∧ decodeCompact [1] = (0, 0) :=
  ⟨(compact_decoder_roundtrip.1 300 (by norm_num)).1,
   compact_decoder_roundtrip.2.1 1 [] (by decide)⟩

/-! ## Storage key derivation for asset metadata

`getAssetMetadata` (networks/manager.go) builds the Blake2-128-Concat
map key by hand: `Twox128(pallet) ++ Twox128("Metadata") ++
blake2b_128(le_u32(id)) ++ le_u32(id)`; `extractAssetIDFromKey` reads
the trailing 4 bytes back out of an enumerated key. The two 64-bit
xxhash digests and the 16-byte blake2b digest are produced by external
libraries, so the embedding takes the hash functions as parameters:
`xx seed data` is the `uint64` returned by `xxhash.NewS64(seed)` and
`blake` is the 16-byte `blake2b.New(16, nil)` digest. -/

/-- embedding of `Twox128`: two seeded 64-bit digests stored
little-endian, 16 bytes total. -/
def Twox128 (xx : Nat → List Nat → Nat) (data : List Nat) : List Nat :=
  leBytes 8 (xx 0 data) ++ leBytes 8 (xx 1 data)

/-- byte list of an ASCII Lean string, modelling a Go string literal
cast to `[]byte`. -/
def strBytes (s : String) : List Nat := s.data.map Char.toNat

/-- embedding of the key construction in `getAssetMetadata`:
`palletHash ++ storageHash ++ blake2b_128(assetIDBytes) ++ assetIDBytes`
with `assetIDBytes = le_u32(assetID)`. -/
def assetMetadataKey (xx : Nat → List Nat → Nat)
    (blake : List Nat → List Nat) (palletName : List Nat)
    (assetID : Nat) : List Nat :=
  let assetIDBytes := leBytes 4 assetID
  let palletHash := Twox128 xx palletName
  let storageHash := Twox128 xx (strBytes "Metadata")
  palletHash ++ storageHash ++ blake assetIDBytes ++ assetIDBytes

/-- embedding of `extractAssetIDFromKey`: reject keys shorter than 52
bytes, else read the little-endian `u32` at byte offset 48. -/
def extractAssetIDFromKey (keyBytes : List Nat) : Except String Nat :=
  if keyBytes.length < 52 then .error "key too short"
  else .ok (leVal ((keyBytes.drop 48).take 4))

/-- C6: for every `u32` asset id, the derived metadata map key has the
shape `twox(pallet) ++ twox(item) ++ blake2b_128(le_u32 id) ++ le_u32 id`,
is exactly 52 bytes long, and extracting the suffix at offset 48
recovers the original asset id, for any 16-byte-digest blake2b and any
64-bit xxhash. -/
theorem asset_key_shape_and_roundtrip (xx : Nat → List Nat → Nat)
    (blake : List Nat → List Nat) (hblake : ∀ bs, (blake bs).length = 16)
    (palletName : List Nat) (assetID : Nat) (hid : assetID < 2 ^ 32) :
    assetMetadataKey xx blake palletName assetID =
      Twox128 xx palletName ++ Twox128 xx (strBytes "Metadata")
        ++ blake (leBytes 4 assetID) ++ leBytes 4 assetID
    ∧ (assetMetadataKey xx blake palletName assetID).length = 52
    ∧ extractAssetIDFromKey (assetMetadataKey xx blake palletName assetID) =
        .ok assetID := by
  have hlen : (assetMetadataKey xx blake palletName assetID).length = 52 := by
    simp [assetMetadataKey, Twox128, hblake]
  refine ⟨rfl, hlen, ?_⟩
  unfold extractAssetIDFromKey
  rw [if_neg (by omega)]
  have hsplit : assetMetadataKey xx blake palletName assetID =
      (Twox128 xx palletName ++ Twox128 xx (strBytes "Metadata")
        ++ blake (leBytes 4 assetID)) ++ leBytes 4 assetID := by
    simp [assetMetadataKey, List.append_assoc]
  rw [hsplit, List.drop_append_of_le_length (by simp [Twox128, hblake]),
    List.drop_eq_nil_of_le (by simp [Twox128, hblake]), List.nil_append,
    List.take_of_length_le (by simp), leVal_leBytes]
  congr 1
  have : (256 : Nat) ^ 4 = 2 ^ 32 := by norm_num
  omega

/-- witness for C6 with concrete stand-in hash functions of the right
digest widths and asset id `7`. -/
theorem asset_key_shape_and_roundtrip_witness :
    assetMetadataKey (fun _ _ => 0) (fun _ => List.replicate 16 0)
        (strBytes "Assets") 7 =
      Twox128 (fun _ _ => 0) (strBytes "Assets")
        ++ Twox128 (fun _ _ => 0) (strBytes "Metadata")
        ++ (fun _ : List Nat => List.replicate 16 0) (leBytes 4 7)
        ++ leBytes 4 7
    ∧ (assetMetadataKey (fun _ _ => 0) (fun _ => List.replicate 16 0)
        (strBytes "Assets") 7).length = 52
    ∧ extractAssetIDFromKey
        (assetMetadataKey (fun _ _ => 0) (fun _ => List.replicate 16 0)
          (strBytes "Assets") 7) = .ok 7 :=
  asset_key_shape_and_roundtrip (fun _ _ => 0) (fun _ => List.replicate 16 0)
    (fun _ => by simp) (strBytes "Assets") 7 (by norm_num)

/-! ## Native balance resolution

`GetBalance` (networks/manager.go): after the external storage fetch of
`System.Account`, a present entry's `(free, reserved, miscFrozen)`
fields are copied into the Balance with `feeFrozen = 0`, `bonded = 0`
and `total = free + reserved`; an absent entry yields an all-zero
Balance with a nil error. Transport and address-decoding failures
happen before this point and are outside this layer. All fields are
`big.Int`, embedded as `Int`. -/

structure Balance where
  Free : Int
  Reserved : Int
  MiscFrozen : Int
  FeeFrozen : Int
  Bonded : Int
  Total : Int
  deriving DecidableEq, Repr

def zeroBalance : Balance := ⟨0, 0, 0, 0, 0, 0⟩

/-- decoded `System.Account` storage record as used by `GetBalance`. -/
structure AccountData where
  free : Int
  reserved : Int
  miscFrozen : Int

/-- embedding of the tail of `GetBalance`: build the returned Balance
from the optional decoded `System.Account` entry. -/
def getBalanceDecode (entry : Option AccountData) : Balance :=
  match entry with
  | none => zeroBalance
  | some d => ⟨d.free, d.reserved, d.miscFrozen, 0, 0, d.free + d.reserved⟩

/-- C3: every native balance built from a present `System.Account`
entry has `total = free + reserved` exactly with `feeFrozen = 0` and
`bonded = 0`, and an absent entry yields the all-zero Balance (returned
without error in the source). -/
theorem native_balance_total_invariant :
    (∀ free reserved miscFrozen : Int,
      (getBalanceDecode (some ⟨free, reserved, miscFrozen⟩)).Total =
          (getBalanceDecode (some ⟨free, reserved, miscFrozen⟩)).Free +
            (getBalanceDecode (some ⟨free, reserved, miscFrozen⟩)).Reserved
      ∧ (getBalanceDecode (some ⟨free, reserved, miscFrozen⟩)).FeeFrozen = 0
      ∧ (getBalanceDecode (some ⟨free, reserved, miscFrozen⟩)).Bonded = 0
      ∧ (getBalanceDecode (some ⟨free, reserved, miscFrozen⟩)).Free = free
      ∧ (getBalanceDecode (some ⟨free, reserved, miscFrozen⟩)).Reserved =
          reserved)
    ∧ getBalanceDecode none = zeroBalance :=
  ⟨fun _ _ _ => ⟨rfl, rfl, rfl, rfl, rfl⟩, rfl⟩

/-! ## Asset metadata resolution

`getAssetMetadata` (networks/manager.go) decodes the fetched
`Metadata` storage value in fixed order — skip the 16-byte deposit,
compact-length name, compact-length symbol, one decimals byte — keeping
every field decoded before a failure point and substituting placeholders
for the rest. `getForeignAssetMetadata` is the ForeignAssets analogue
with its own fallback record. Go strings are byte strings; `asGoString`
turns a byte list into the corresponding string. -/

structure AssetMetadata where
  Name : String
  Symbol : String
  Decimals : Nat
  deriving DecidableEq, Repr

/-- string built from raw bytes, modelling Go's `string(bytes)`. -/
def asGoString (bytes : List Nat) : String := ⟨bytes.map Char.ofNat⟩

/-- placeholder record returned by `getAssetMetadata` when nothing (or
not even a name) could be decoded. -/
def assetPlaceholder (assetID : Nat) : AssetMetadata :=
  ⟨"Asset #" ++ Nat.repr assetID, "ASSET" ++ Nat.repr assetID, 10⟩

/-- fallback record of `getForeignAssetMetadata` for unknown foreign
assets. -/
def foreignAssetFallback (assetID : Nat) : AssetMetadata :=
  ⟨"Foreign Asset #" ++ Nat.repr assetID, "FA" ++ Nat.repr assetID, 10⟩

/-- embedding of `getAssetMetadata` from the optional fetched storage
value on (`none` covers a fetch error or an absent key). -/
def getAssetMetadata (entry : Option (List Nat)) (assetID : Nat) :
    AssetMetadata :=
  match entry with
  | none => assetPlaceholder assetID
  | some data =>
    if data.length = 0 then assetPlaceholder assetID
    else if data.length < 16 then assetPlaceholder assetID
    else
      let p1 := decodeCompact (data.drop 16)
      let o1 := 16 + p1.2
      if o1 + p1.1 > data.length then assetPlaceholder assetID
      else
        let name := (data.drop o1).take p1.1
        let o2 := o1 + p1.1
        let p2 := decodeCompact (data.drop o2)
        let o3 := o2 + p2.2
        if o3 + p2.1 > data.length then
          ⟨asGoString name, "ASSET" ++ Nat.repr assetID, 10⟩
        else
          let symbol := (data.drop o3).take p2.1
          let o4 := o3 + p2.1
          ⟨asGoString name, asGoString symbol, data.getD o4 10⟩

/-- embedding of `getForeignAssetMetadata`: the decode is attempted only
when more than 16 bytes are present, a field whose declared length
overruns the buffer is left empty without advancing the offset, and the
decoded record is used only when both name and symbol are nonempty. -/
def getForeignAssetMetadata (entry : Option (List Nat)) (assetID : Nat) :
    AssetMetadata :=
  match entry with
  | none => foreignAssetFallback assetID
  | some data =>
    if data.length ≤ 16 then foreignAssetFallback assetID
    else
      let p1 := decodeCompact (data.drop 16)
      let o1 := 16 + p1.2
      let name := if o1 + p1.1 ≤ data.length then (data.drop o1).take p1.1 else []
      let o2 := if o1 + p1.1 ≤ data.length then o1 + p1.1 else o1
      let p2 := decodeCompact (data.drop o2)
      let o3 := o2 + p2.2
      let symbol := if o3 + p2.1 ≤ data.length then (data.drop o3).take p2.1 else []
      let o4 := if o3 + p2.1 ≤ data.length then o3 + p2.1 else o3
      let decimals := data.getD o4 10
      if name ≠ [] ∧ symbol ≠ [] then
        ⟨asGoString name, asGoString symbol, decimals⟩
      else foreignAssetFallback assetID

/-- C7 counterexample: for a foreign asset with an absent metadata
entry the placeholder name is `"Foreign Asset #7"`, not the claimed
`"Asset #7"` — only the symbol uses the `FA` form. -/
theorem foreign_placeholder_name_counterexample :
    getForeignAssetMetadata none 7 =
      ⟨"Foreign Asset #7", "FA7", 10⟩
    ∧ getForeignAssetMetadata none 7 ≠ ⟨"Asset #7", "FA7", 10⟩ := by
  constructor
  · decide
  · decide

theorem decodeCompact_encode_append64 (v : Nat) (hv : v < 2 ^ 64)
    (rest : List Nat) :
    decodeCompact (scaleEncodeCompact v ++ rest) =
      (v, (scaleEncodeCompact v).length) := by
  have h := decodeCompact_encode_append v
    (lt_trans hv (by norm_num)) rest
  rw [h, Nat.mod_eq_of_lt hv]

theorem getD_drop_cons (l : List Nat) (k x d : Nat) (t : List Nat)
    (h : l.drop k = x :: t) : l.getD k d = x := by
  induction k generalizing l with
  | zero =>
    simp only [List.drop_zero] at h
    subst h
    rfl
  | succ k ih =>
    cases l with
    | nil => simp at h
    | cons a l' =>
      simp only [List.drop_succ_cons] at h
      simpa [List.getD] using ih l' h

theorem assetMeta_full (assetID : Nat) (dep n s tail : List Nat)
    (d : Nat) (hdep : dep.length = 16) (hn : n.length < 2 ^ 30)
    (hs : s.length < 2 ^ 30) :
    getAssetMetadata
        (some (dep ++ scaleEncodeCompact n.length ++ n ++
          scaleEncodeCompact s.length ++ s ++ d :: tail)) assetID =
      ⟨asGoString n, asGoString s, d⟩ := by
  set e1 := scaleEncodeCompact n.length with he1
  set e2 := scaleEncodeCompact s.length with he2
  have key : ∀ data : List Nat,
      data = dep ++ (e1 ++ (n ++ (e2 ++ (s ++ d :: tail)))) →
      getAssetMetadata (some data) assetID =
        ⟨asGoString n, asGoString s, d⟩ := by
    intro data hdata
    have hlen : data.length =
        16 + e1.length + n.length + e2.length + s.length + 1 + tail.length := by
      simp only [hdata, List.length_append, List.length_cons, hdep]
      omega
    have hd16 : data.drop 16 = e1 ++ (n ++ (e2 ++ (s ++ d :: tail))) := by
      rw [hdata]; exact List.drop_left' hdep
    have h1 : decodeCompact (data.drop 16) = (n.length, e1.length) := by
      rw [hd16, he1]
      exact decodeCompact_encode_append64 _ (lt_trans hn (by norm_num)) _
    have hd1 : data.drop (16 + e1.length) = n ++ (e2 ++ (s ++ d :: tail)) := by
      have hsplit : data = (dep ++ e1) ++ (n ++ (e2 ++ (s ++ d :: tail))) := by
        simp [hdata]
      rw [hsplit, List.drop_left'
        (by simp only [List.length_append, hdep])]
    have h2 : decodeCompact (data.drop (16 + e1.length + n.length)) =
        (s.length, e2.length) := by
      have hsplit : data = ((dep ++ e1) ++ n) ++ (e2 ++ (s ++ d :: tail)) := by
        simp [hdata]
      rw [hsplit, List.drop_left'
        (by simp only [List.length_append, hdep]), he2]
      exact decodeCompact_encode_append64 _ (lt_trans hs (by norm_num)) _
    have hd3 : data.drop (16 + e1.length + n.length + e2.length) =
        s ++ d :: tail := by
      have hsplit : data = (((dep ++ e1) ++ n) ++ e2) ++ (s ++ d :: tail) := by
        simp [hdata]
      rw [hsplit, List.drop_left'
        (by simp only [List.length_append, hdep])]
    have hd4 : data.drop (16 + e1.length + n.length + e2.length + s.length) =
        d :: tail := by
      have hsplit : data = ((((dep ++ e1) ++ n) ++ e2) ++ s) ++ d :: tail := by
        simp [hdata]
      rw [hsplit, List.drop_left'
        (by simp only [List.length_append, hdep])]
    unfold getAssetMetadata
    simp only [h1, h2, hd1, hd3]
    rw [if_neg (by omega), if_neg (by omega), if_neg (by omega),
      if_neg (by omega)]
    congr 1
    · rw [List.take_left' rfl]
    · rw [List.take_left' rfl]
    · exact getD_drop_cons data _ d 10 tail hd4
  exact key _ (by simp)

theorem assetMeta_absent (assetID : Nat) :
    getAssetMetadata none assetID = assetPlaceholder assetID := rfl

theorem foreignMeta_absent (assetID : Nat) :
    getForeignAssetMetadata none assetID = foreignAssetFallback assetID := rfl

theorem assetMeta_short (assetID : Nat) (data : List Nat)
    (h : data.length < 16) :
    getAssetMetadata (some data) assetID = assetPlaceholder assetID := by
  by_cases h0 : data.length = 0
  · simp only [getAssetMetadata, if_pos h0]
  · simp only [getAssetMetadata, if_neg h0, if_pos h]

theorem assetMeta_nameOverrun (assetID : Nat) (dep t : List Nat) (k : Nat)
    (hdep : dep.length = 16) (hk : k < 2 ^ 30) (ht : t.length < k) :
    getAssetMetadata (some (dep ++ scaleEncodeCompact k ++ t)) assetID =
      assetPlaceholder assetID := by
  set ek := scaleEncodeCompact k with hek
  have key : ∀ data : List Nat, data = dep ++ (ek ++ t) →
      getAssetMetadata (some data) assetID = assetPlaceholder assetID := by
    intro data hdata
    have hlen : data.length = 16 + ek.length + t.length := by
      simp only [hdata, List.length_append, hdep]
      omega
    have h1 : decodeCompact (data.drop 16) = (k, ek.length) := by
      rw [hdata, List.drop_left' hdep, hek]
      exact decodeCompact_encode_append64 _ (lt_trans hk (by norm_num)) _
    have hk1 : 1 ≤ ek.length := by
      rw [hek]
      unfold scaleEncodeCompact
      by_cases c0 : k < 64
      · simp [c0]
      · by_cases c1 : k < 16384
        · simp [c0, c1]
        · by_cases c2 : k < 1073741824
          · simp [c0, c1, c2]
          · simp [c0, c1, c2]
    unfold getAssetMetadata
    simp only [h1]
    rw [if_neg (by omega), if_neg (by omega), if_pos (by omega)]
  exact key _ (by simp)

theorem assetMeta_symbolOverrun (assetID : Nat) (dep n t : List Nat)
    (k : Nat) (hdep : dep.length = 16) (hn : n.length < 2 ^ 30)
    (hk : k < 2 ^ 30) (ht : t.length < k) :
    getAssetMetadata
        (some (dep ++ scaleEncodeCompact n.length ++ n ++
          scaleEncodeCompact k ++ t)) assetID =
      ⟨asGoString n, "ASSET" ++ Nat.repr assetID, 10⟩ := by
  set e1 := scaleEncodeCompact n.length with he1
  set ek := scaleEncodeCompact k with hek
  have key : ∀ data : List Nat, data = dep ++ (e1 ++ (n ++ (ek ++ t))) →
      getAssetMetadata (some data) assetID =
        ⟨asGoString n, "ASSET" ++ Nat.repr assetID, 10⟩ := by
    intro data hdata
    have hlen : data.length =
        16 + e1.length + n.length + ek.length + t.length := by
      simp only [hdata, List.length_append, hdep]
      omega
    have h1 : decodeCompact (data.drop 16) = (n.length, e1.length) := by
      rw [hdata, List.drop_left' hdep, he1]
      exact decodeCompact_encode_append64 _ (lt_trans hn (by norm_num)) _
    have hd1 : data.drop (16 + e1.length) = n ++ (ek ++ t) := by
      have hsplit : data = (dep ++ e1) ++ (n ++ (ek ++ t)) := by
        simp [hdata]
      rw [hsplit, List.drop_left' (by simp only [List.length_append, hdep])]
    have h2 : decodeCompact (data.drop (16 + e1.length + n.length)) =
        (k, ek.length) := by
      have hsplit : data = ((dep ++ e1) ++ n) ++ (ek ++ t) := by
        simp [hdata]
      rw [hsplit, List.drop_left' (by simp only [List.length_append, hdep]),
        hek]
      exact decodeCompact_encode_append64 _ (lt_trans hk (by norm_num)) _
    unfold getAssetMetadata
    simp only [h1, h2, hd1]
    rw [if_neg (by omega), if_neg (by omega), if_neg (by omega),
      if_pos (by omega)]
    congr 1
    rw [List.take_left' rfl]
  exact key _ (by simp)

theorem assetMeta_noDecimalsByte (assetID : Nat) (dep n s : List Nat)
    (hdep : dep.length = 16) (hn : n.length < 2 ^ 30)
    (hs : s.length < 2 ^ 30) :
    getAssetMetadata
        (some (dep ++ scaleEncodeCompact n.length ++ n ++
          scaleEncodeCompact s.length ++ s)) assetID =
      ⟨asGoString n, asGoString s, 10⟩ := by
  set e1 := scaleEncodeCompact n.length with he1
  set e2 := scaleEncodeCompact s.length with he2
  have key : ∀ data : List Nat, data = dep ++ (e1 ++ (n ++ (e2 ++ s))) →
      getAssetMetadata (some data) assetID =
        ⟨asGoString n, asGoString s, 10⟩ := by
    intro data hdata
    have hlen : data.length =
        16 + e1.length + n.length + e2.length + s.length := by
      simp only [hdata, List.length_append, hdep]
      omega
    have h1 : decodeCompact (data.drop 16) = (n.length, e1.length) := by
      rw [hdata, List.drop_left' hdep, he1]
      exact decodeCompact_encode_append64 _ (lt_trans hn (by norm_num)) _
    have hd1 : data.drop (16 + e1.length) = n ++ (e2 ++ s) := by
      have hsplit : data = (dep ++ e1) ++ (n ++ (e2 ++ s)) := by
        simp [hdata]
      rw [hsplit, List.drop_left' (by simp only [List.length_append, hdep])]
    have h2 : decodeCompact (data.drop (16 + e1.length + n.length)) =
        (s.length, e2.length) := by
      have hsplit : data = ((dep ++ e1) ++ n) ++ (e2 ++ s) := by
        simp [hdata]
      rw [hsplit, List.drop_left' (by simp only [List.length_append, hdep]),
        he2]
      exact decodeCompact_encode_append64 _ (lt_trans hs (by norm_num)) _
    have hd3 : data.drop (16 + e1.length + n.length + e2.length) = s := by
      have hsplit : data = (((dep ++ e1) ++ n) ++ e2) ++ s := by
        simp [hdata]
      rw [hsplit, List.drop_left' (by simp only [List.length_append, hdep])]
    unfold getAssetMetadata
    simp only [h1, h2, hd1, hd3]
    rw [if_neg (by omega), if_neg (by omega), if_neg (by omega),
      if_neg (by omega)]
    congr 1
    · rw [List.take_left' rfl]
    · rw [List.take_length]
    · exact List.getD_eq_default _ _ (by omega)
  exact key _ (by simp)

/-- C7 amended: metadata resolution never fails — an absent or
unreadable entry yields the full placeholder `{Asset #id, ASSETid, 10}`
from the asset resolver and `{Foreign Asset #id, FAid, 10}` from the
foreign-asset resolver (the claim's `Asset #<id>` name is wrong for the
foreign path); decoding of a present entry keeps every field decoded
before the failure point: a name whose declared length overruns the
buffer yields the full placeholder, a symbol overrun keeps the decoded
name, a missing decimals byte keeps name and symbol with decimals 10,
and a complete entry decodes all three fields. -/
theorem asset_metadata_progressive_fallback :
    (∀ assetID : Nat,
      getAssetMetadata none assetID = assetPlaceholder assetID
      ∧ getForeignAssetMetadata none assetID = foreignAssetFallback assetID)
    ∧ (∀ (assetID : Nat) (data : List Nat), data.length < 16 →
        getAssetMetadata (some data) assetID = assetPlaceholder assetID)
    ∧ (∀ (assetID : Nat) (dep t : List Nat) (k : Nat), dep.length = 16 →
        k < 2 ^ 30 → t.length < k →
        getAssetMetadata (some (dep ++ scaleEncodeCompact k ++ t)) assetID =
          assetPlaceholder assetID)
    ∧ (∀ (assetID : Nat) (dep n t : List Nat) (k : Nat), dep.length = 16 →
        n.length < 2 ^ 30 → k < 2 ^ 30 → t.length < k →
        getAssetMetadata
            (some (dep ++ scaleEncodeCompact n.length ++ n ++
              scaleEncodeCompact k ++ t)) assetID =
          ⟨asGoString n, "ASSET" ++ Nat.repr assetID, 10⟩)
    ∧ (∀ (assetID : Nat) (dep n s : List Nat), dep.length = 16 →
        n.length < 2 ^ 30 → s.length < 2 ^ 30 →
        getAssetMetadata
            (some (dep ++ scaleEncodeCompact n.length ++ n ++
              scaleEncodeCompact s.length ++ s)) assetID =
          ⟨asGoString n, asGoString s, 10⟩)
    ∧ (∀ (assetID : Nat) (dep n s tail : List Nat) (d : Nat),
        dep.length = 16 → n.length < 2 ^ 30 → s.length < 2 ^ 30 →
        getAssetMetadata
            (some (dep ++ scaleEncodeCompact n.length ++ n ++
              scaleEncodeCompact s.length ++ s ++ d :: tail)) assetID =
          ⟨asGoString n, asGoString s, d⟩) :=
  ⟨fun assetID => ⟨assetMeta_absent assetID, foreignMeta_absent assetID⟩,
   fun assetID data h => assetMeta_short assetID data h,
   fun assetID dep t k h1 h2 h3 => assetMeta_nameOverrun assetID dep t k h1 h2 h3,
   fun assetID dep n t k h1 h2 h3 h4 =>
     assetMeta_symbolOverrun assetID dep n t k h1 h2 h3 h4,
   fun assetID dep n s h1 h2 h3 => assetMeta_noDecimalsByte assetID dep n s h1 h2 h3,
   fun assetID dep n s tail d h1 h2 h3 =>
     assetMeta_full assetID dep n s tail d h1 h2 h3⟩

/-- witness for the amended C7 at concrete inputs: each fallback stage
evaluated on a small concrete buffer. -/
theorem asset_metadata_progressive_fallback_witness :
    getAssetMetadata none 7 = assetPlaceholder 7
    ∧ getForeignAssetMetadata none 7 = foreignAssetFallback 7
    ∧ getAssetMetadata (some [1, 2, 3]) 7 = assetPlaceholder 7
    ∧ getAssetMetadata
        (some (List.replicate 16 0 ++ scaleEncodeCompact 5 ++ [1])) 7 =
        assetPlaceholder 7
    ∧ getAssetMetadata
        (some (List.replicate 16 0 ++ scaleEncodeCompact [(65 : Nat)].length ++
          [65] ++ scaleEncodeCompact 5 ++ [1])) 7 =
        ⟨asGoString [65], "ASSET" ++ Nat.repr 7, 10⟩
    ∧ getAssetMetadata
        (some (List.replicate 16 0 ++ scaleEncodeCompact [(65 : Nat)].length ++
          [65] ++ scaleEncodeCompact [(66 : Nat)].length ++ [66])) 7 =
        ⟨asGoString [65], asGoString [66], 10⟩
    ∧ getAssetMetadata
        (some (List.replicate 16 0 ++ scaleEncodeCompact [(65 : Nat)].length ++
          [65] ++ scaleEncodeCompact [(66 : Nat)].length ++ [66] ++
          9 :: [])) 7 =
        ⟨asGoString [65], asGoString [66], 9⟩ :=
  ⟨(asset_metadata_progressive_fallback.1 7).1,
   (asset_metadata_progressive_fallback.1 7).2,
   asset_metadata_progressive_fallback.2.1 7 [1, 2, 3] (by norm_num),
   asset_metadata_progressive_fallback.2.2.1 7 (List.replicate 16 0) [1] 5
     (by simp) (by norm_num) (by norm_num),
   asset_metadata_progressive_fallback.2.2.2.1 7 (List.replicate 16 0) [65]
     [1] 5 (by simp) (by norm_num) (by norm_num) (by norm_num),
   asset_metadata_progressive_fallback.2.2.2.2.1 7 (List.replicate 16 0)
     [65] [66] (by simp) (by norm_num) (by norm_num),
   asset_metadata_progressive_fallback.2.2.2.2.2 7 (List.replicate 16 0)
     [65] [66] [] 9 (by simp) (by norm_num) (by norm_num)⟩

/-! ## Asset id parsing in `GetAssetBalance`

`GetAssetBalance` (networks/manager.go) parses its `assetID` string
argument with `strconv.ParseUint(assetID, 10, 32)` — base-10 digits
only — and on success stores the value as a little-endian `u32` raw
key. There is no other parsing branch: a string that is not a pure
decimal number below `2^32` makes the function return an
invalid-asset-id error before any key is derived. -/

/-- embedding of `strconv.ParseUint(s, 10, 32)`: succeeds exactly on a
nonempty all-digit string whose value fits in 32 bits. -/
def goParseUint10u32 (s : List Char) : Except Unit Nat :=
  if s.isEmpty then .error ()
  else if s.all (fun c => c.isDigit) then
    let v := s.foldl (fun acc c => acc * 10 + (c.toNat - 48)) 0
    if v < 4294967296 then .ok v else .error ()
  else .error ()

/-- embedding of the asset-id handling of `GetAssetBalance`: parse the
decimal string, then encode the value as the little-endian `u32` raw
key bytes. -/
def assetIDRawKey (s : List Char) : Except Unit (List Nat) :=
  match goParseUint10u32 s with
  | .error e => .error e
  | .ok v => .ok (leBytes 4 v)

/-- C8 counterexample: no `"0x"`-prefixed string is ever accepted by
the asset-id parser — the hex input form claimed by the spec always
yields the invalid-asset-id error, so only the decimal form can derive
a key. -/
theorem hex_asset_id_rejected_counterexample :
    ¬ ∃ (rest : List Char) (v : Nat),
        goParseUint10u32 ('0' :: 'x' :: rest) = .ok v := by
  rintro ⟨rest, v, h⟩
  have hx : ('x' : Char).isDigit = false := by decide
  simp [goParseUint10u32, hx] at h

/-- C8 amended: `GetAssetBalance` accepts the asset id only as a
decimal numeric string — every successful parse yields a value below
`2^32` whose little-endian `u32` bytes become the raw key — while every
`"0x"`-prefixed string is rejected with the invalid-asset-id error;
the concrete decimal input `"7"` succeeds. -/
theorem asset_id_decimal_only :
    (∀ (s : List Char) (v : Nat), goParseUint10u32 s = .ok v →
      v < 2 ^ 32 ∧ assetIDRawKey s = .ok (leBytes 4 v))
    ∧ (∀ rest : List Char,
        assetIDRawKey ('0' :: 'x' :: rest) = .error ())
    ∧ assetIDRawKey ['7'] = .ok (leBytes 4 7) := by
  refine ⟨?_, ?_, by rfl⟩
  · intro s v h
    unfold goParseUint10u32 at h
    by_cases he : s.isEmpty
    · rw [if_pos he] at h
      simp at h
    · rw [if_neg he] at h
      by_cases ha : s.all (fun c => c.isDigit)
      · rw [if_pos ha] at h
        by_cases hv : s.foldl (fun acc c => acc * 10 + (c.toNat - 48)) 0 <
            4294967296
        · rw [if_pos hv] at h
          simp only [Except.ok.injEq] at h
          subst h
          refine ⟨by omega, ?_⟩
          unfold assetIDRawKey goParseUint10u32
          rw [if_neg he, if_pos ha, if_pos hv]
        · rw [if_neg hv] at h
          simp at h
      · rw [if_neg ha] at h
        simp at h
  · intro rest
    have hx : ('x' : Char).isDigit = false := by decide
    unfold assetIDRawKey goParseUint10u32
    simp [hx]

/-- witness for the amended C8: the decimal string `"42"` parses to the
value `42` and its little-endian `u32` key bytes. -/
theorem asset_id_decimal_only_witness :
    (42 : Nat) < 2 ^ 32 ∧ assetIDRawKey ['4', '2'] = .ok (leBytes 4 42) :=
  asset_id_decimal_only.1 ['4', '2'] 42 (by rfl)

/-! ## The monitor's human-unit magnitude

`processTokenBalance` (monitor/monitor.go) converts the raw delta to
human units with binary floating point: `big.Float.SetInt(change)`
(precision `max(bitlen change, 64)`, exact), `Quo` by
`big.Float.SetInt(10^decimals)` (rounded to the receiver's precision,
nearest-even), then `Float64()` (rounded to 53 bits, nearest-even), and
finally negation of a negative result. `roundQ prec q` is
round-to-nearest-even at `prec` significant bits (exponent range is
unbounded, which is faithful for every magnitude this monitor can
produce). -/

/-- round a rational to the nearest integer, ties to even. -/
def rne (x : ℚ) : Int :=
  let fl := ⌊x⌋
  let fr := x - fl
  if fr < 1 / 2 then fl
  else if 1 / 2 < fr then fl + 1
  else if fl % 2 = 0 then fl else fl + 1

/-- binary exponent of a nonzero rational: the unique `e` with
`2^e ≤ |q| < 2^(e+1)`. -/
def qexp (q : ℚ) : Int :=
  let d : Int := (Nat.size q.num.natAbs : Int) - (Nat.size q.den : Int)
  if |q| < (2 : ℚ) ^ d then d - 1 else d

/-- round a rational to `prec` significant bits, nearest-even. -/
def roundQ (prec : Nat) (q : ℚ) : ℚ :=
  if q = 0 then 0
  else
    let s : Int := qexp q - ((prec : Int) - 1)
    (rne (q * (2 : ℚ) ^ (-s)) : ℚ) * (2 : ℚ) ^ s

/-- precision `big.Float.SetInt` assigns: `max(BitLen, 64)`. -/
def goBigFloatPrec (c : Int) : Nat := max (Nat.size c.natAbs) 64

/-- embedding of the magnitude `processTokenBalance` compares against
the threshold: `big.Float` quotient at the receiver's precision, then
`Float64()` at 53 bits, then absolute value. -/
def humanMagnitude (change : Int) (decimals : Nat) : ℚ :=
  let q := roundQ (goBigFloatPrec change)
    ((change : ℚ) / (10 : ℚ) ^ decimals)
  |roundQ 53 q|

/-- Modelled from the spec: the exact integer-arithmetic conversion the
spec prescribes — `whole = |delta| / 10^decimals` and
`frac = (|delta| % 10^decimals) * 10^4 / 10^decimals` — read back as
the rational `whole + frac/10^4`. The repository computes the compared
magnitude with `big.Float` instead; this definition exists only to
state the comparison. -/
def specHumanMagnitude4 (change : Int) (decimals : Nat) : ℚ :=
  let a := change.natAbs
  let p := 10 ^ decimals
  (a / p : Nat) + ((a % p * 10 ^ 4 / p : Nat) : ℚ) / (10 ^ 4 : ℚ)

theorem rne_intCast (n : Int) : rne (n : ℚ) = n := by
  unfold rne
  simp

theorem roundQ_intCast (prec : Nat) (m : Int)
    (hm : m.natAbs < 2 ^ prec) : roundQ prec (m : ℚ) = m := by
  by_cases h0 : m = 0
  · subst h0; simp [roundQ]
  · have habs : m.natAbs ≠ 0 := by omega
    have hsize1 : 1 ≤ Nat.size m.natAbs := by
      rw [Nat.one_le_iff_ne_zero, Ne, Nat.size_eq_zero]
      exact habs
    have hsle : Nat.size m.natAbs ≤ prec := Nat.size_le.mpr hm
    have hq0 : ((m : ℚ)) ≠ 0 := Int.cast_ne_zero.mpr h0
    unfold roundQ
    rw [if_neg hq0]
    dsimp only
    have hnum : (m : ℚ).num = m := Rat.num_intCast m
    have hden : (m : ℚ).den = 1 := Rat.den_intCast m
    have hqexp : qexp (m : ℚ) =
        (Nat.size m.natAbs : Int) - 1 := by
      unfold qexp
      rw [hnum, hden]
      have hd : (Nat.size m.natAbs : Int) - (Nat.size 1 : Int) =
          (Nat.size m.natAbs : Int) - 1 := by
        norm_num [Nat.size_one]
      rw [hd]
      have hlow : (2 : Nat) ^ (Nat.size m.natAbs - 1) ≤ m.natAbs :=
        Nat.lt_size.mp (by omega)
      have habsq : |(m : ℚ)| = ((m.natAbs : Nat) : ℚ) := by
        rw [Int.cast_natAbs, Int.cast_abs]
      rw [if_neg]
      push_neg
      rw [habsq]
      calc ((2 : ℚ)) ^ ((Nat.size m.natAbs : Int) - 1) =
            ((2 : ℚ)) ^ ((Nat.size m.natAbs - 1 : Nat) : Int) := by
              congr 1
              omega
        _ = ((2 : ℚ)) ^ (Nat.size m.natAbs - 1 : Nat) := by
              rw [zpow_natCast]
        _ = (((2 ^ (Nat.size m.natAbs - 1) : Nat) : ℚ)) := by
              push_cast
              ring
        _ ≤ ((m.natAbs : Nat) : ℚ) := by
              exact_mod_cast hlow
    rw [hqexp]
    set k : Nat := prec - Nat.size m.natAbs with hk
    have hs : (Nat.size m.natAbs : Int) - 1 - ((prec : Int) - 1) =
        -(k : Int) := by
      rw [hk]
      omega
    rw [hs, neg_neg]
    have hcast : (m : ℚ) * (2 : ℚ) ^ ((k : Nat) : Int) =
        ((m * 2 ^ k : Int) : ℚ) := by
      rw [zpow_natCast]
      push_cast
      ring
    rw [hcast, rne_intCast]
    have h2k : ((2 : ℚ)) ^ (-(k : Int)) = ((2 : ℚ) ^ (k : Nat))⁻¹ := by
      rw [zpow_neg, zpow_natCast]
    rw [h2k]
    push_cast
    field_simp

/-- for zero decimals the `big.Float` pipeline is exact on every
integer below `2^53`: the compared magnitude is exactly `|change|`. -/
theorem humanMagnitude_zero_decimals (c : Int) (h : c.natAbs < 2 ^ 53) :
    humanMagnitude c 0 = |(c : ℚ)| := by
  unfold humanMagnitude
  dsimp only
  have hq : ((c : ℚ)) / (10 : ℚ) ^ (0 : Nat) = (c : ℚ) := by
    norm_num
  rw [hq]
  have h1 : roundQ (goBigFloatPrec c) (c : ℚ) = (c : ℚ) := by
    apply roundQ_intCast
    have hle : Nat.size c.natAbs ≤ goBigFloatPrec c := Nat.le_max_left _ _
    calc c.natAbs < 2 ^ Nat.size c.natAbs := Nat.lt_size_self _
      _ ≤ 2 ^ goBigFloatPrec c := Nat.pow_le_pow_right (by norm_num) hle
  rw [h1, roundQ_intCast 53 c h]

theorem size_1e18p1 : Nat.size (1000000000000000001 : Nat) = 60 := by
  have h1 : Nat.size (1000000000000000001 : Nat) ≤ 60 :=
    Nat.size_le.mpr (by norm_num)
  have h2 : 59 < Nat.size (1000000000000000001 : Nat) :=
    Nat.lt_size.mpr (by norm_num)
  omega

theorem roundQ53_1e18p1 :
    roundQ 53 (((1000000000000000001 : Int) : ℚ)) =
      ((1000000000000000000 : Int) : ℚ) := by
  have hq0 : (((1000000000000000001 : Int) : ℚ)) ≠ 0 := by
    norm_num
  unfold roundQ
  rw [if_neg hq0]
  dsimp only
  have hqexp : qexp (((1000000000000000001 : Int) : ℚ)) = 59 := by
    unfold qexp
    rw [Rat.num_intCast, Rat.den_intCast]
    dsimp only
    have hna : (1000000000000000001 : Int).natAbs = 1000000000000000001 := rfl
    rw [hna, size_1e18p1, Nat.size_one]
    have hcond : ¬ (|(((1000000000000000001 : Int) : ℚ))| <
        (2 : ℚ) ^ (((60 : Nat) : Int) - ((1 : Nat) : Int))) := by
      push_neg
      rw [abs_of_pos (by norm_num)]
      have he : (((60 : Nat) : Int) - ((1 : Nat) : Int)) =
          ((59 : Nat) : Int) := by norm_num
      rw [he, zpow_natCast]
      push_cast
      norm_num
    rw [if_neg hcond]
    norm_num
  rw [hqexp]
  show (rne ((((1000000000000000001 : Int) : ℚ)) * (2 : ℚ) ^ (-(7 : Int))) : ℚ) *
      (2 : ℚ) ^ ((7 : Int)) = _
  have hx : (((1000000000000000001 : Int) : ℚ)) * (2 : ℚ) ^ (-(7 : Int)) =
      (1000000000000000001 : ℚ) / 128 := by
    rw [zpow_neg, show ((7 : Int)) = ((7 : Nat) : Int) from rfl, zpow_natCast]
    push_cast
    norm_num
  rw [hx]
  have hfl : ⌊(1000000000000000001 : ℚ) / 128⌋ = 7812500000000000 := by
    rw [Int.floor_eq_iff]
    constructor
    · push_cast
      norm_num
    · push_cast
      norm_num
  have hrne : rne ((1000000000000000001 : ℚ) / 128) = 7812500000000000 := by
    unfold rne
    rw [hfl]
    dsimp only
    rw [if_pos (by push_cast; norm_num)]
  rw [hrne, show ((7 : Int)) = ((7 : Nat) : Int) from rfl, zpow_natCast]
  push_cast
  norm_num

theorem specHumanMagnitude4_zero_decimals (c : Int) :
    specHumanMagnitude4 c 0 = |(c : ℚ)| := by
  unfold specHumanMagnitude4
  dsimp only
  rw [pow_zero]
  simp only [Nat.div_one, Nat.mod_one, Nat.zero_mul, Nat.zero_div]
  rw [Int.cast_natAbs, Int.cast_abs]
  push_cast
  norm_num

/-- C9 counterexample: at `delta = 10^18 + 1`, `decimals = 0` the
magnitude compared against the threshold is the float64 value
`10^18`, while the exact integer-arithmetic value prescribed by the
spec is `10^18 + 1`: the monitor's conversion uses binary floating
point, not exact integer arithmetic, and loses the final digit. -/
theorem float_magnitude_counterexample :
    humanMagnitude (1000000000000000001 : Int) 0 =
      ((1000000000000000000 : Int) : ℚ)
    ∧ specHumanMagnitude4 (1000000000000000001 : Int) 0 =
      ((1000000000000000001 : Int) : ℚ)
    ∧ humanMagnitude (1000000000000000001 : Int) 0 ≠
      specHumanMagnitude4 (1000000000000000001 : Int) 0 := by
  have h1 : humanMagnitude (1000000000000000001 : Int) 0 =
      ((1000000000000000000 : Int) : ℚ) := by
    unfold humanMagnitude
    dsimp only
    have hdiv : (((1000000000000000001 : Int) : ℚ)) / (10 : ℚ) ^ (0 : Nat) =
        ((1000000000000000001 : Int) : ℚ) := by norm_num
    rw [hdiv]
    have hp : goBigFloatPrec 1000000000000000001 = 64 := by
      unfold goBigFloatPrec
      rw [show (1000000000000000001 : Int).natAbs = 1000000000000000001
        from rfl, size_1e18p1]
      omega
    rw [hp, roundQ_intCast 64 _ (by norm_num), roundQ53_1e18p1,
      abs_of_pos (by norm_num)]
  have h2 : specHumanMagnitude4 (1000000000000000001 : Int) 0 =
      ((1000000000000000001 : Int) : ℚ) := by
    rw [specHumanMagnitude4_zero_decimals, abs_of_pos (by norm_num)]
  refine ⟨h1, h2, ?_⟩
  rw [h1, h2]
  push_cast
  norm_num

/-- C9 amended: the threshold magnitude is computed with binary
floating point (a `big.Float` quotient rounded again by `Float64()`),
not the spec's exact integer arithmetic; the two agree at `decimals = 0`
whenever `|delta| < 2^53` (both equal to `|delta|` exactly), but can
differ beyond 53 bits of magnitude. -/
theorem float_magnitude_agrees_small (c : Int) (h : c.natAbs < 2 ^ 53) :
    humanMagnitude c 0 = |(c : ℚ)| ∧
    specHumanMagnitude4 c 0 = |(c : ℚ)| :=
  ⟨humanMagnitude_zero_decimals c h, specHumanMagnitude4_zero_decimals c⟩

/-- witness for the amended C9 at `delta = 5`. -/
theorem float_magnitude_agrees_small_witness :
    humanMagnitude (5 : Int) 0 = |((5 : Int) : ℚ)| ∧
    specHumanMagnitude4 (5 : Int) 0 = |((5 : Int) : ℚ)| :=
  float_magnitude_agrees_small 5 (by norm_num)

/-! ## Balance reconciliation step

`processTokenBalance` (monitor/monitor.go) is embedded as a pure
function from the previously stored row (if any), the newly resolved
Balance, and the relevant account/config flags, to the effects it
performs: it always upserts the Balance row (update when a previous row
exists, insert otherwise), it never writes a `balance_history` row
(the database layer's `RecordBalanceChange` is present but uncalled),
and it sends a notification exactly when the delta is nonzero, the
float64 human-unit magnitude reaches the configured threshold
(inclusive `>=`), the account has `discord_notify` set, and a Discord
client is configured (`m.discord != nil`, which main.go establishes
only when notifications are globally enabled). -/

structure MonitorCtx where
  decimals : Nat
  threshold : ℚ
  discordNotify : Bool
  discordConfigured : Bool

structure ReconcileEffects where
  upserted : Bool
  rowInserted : Bool
  historyAppended : Bool
  notified : Bool
  change : Int
  deriving DecidableEq, Repr

/-- embedding of `processTokenBalance`: compute the delta against the
previous row (all-zero when absent), upsert unconditionally, never
append history, and apply the notification gate. -/
def processTokenBalance (ctx : MonitorCtx) (prev : Option Balance)
    (newBal : Balance) : ReconcileEffects :=
  let previousBalance := prev.getD zeroBalance
  let change := newBal.Total - previousBalance.Total
  let notified :=
    decide (change ≠ 0)
    && decide (ctx.threshold ≤ humanMagnitude change ctx.decimals)
    && ctx.discordNotify
    && ctx.discordConfigured
  { upserted := true
    rowInserted := prev.isNone
    historyAppended := false
    notified := notified
    change := change }

/-- C1 (code bug): a reconciliation step with a nonzero delta — here
previous total `0`, new total `5`, which even fires the notification —
upserts the Balance row but appends no BalanceChange history row:
`processTokenBalance` never calls `RecordBalanceChange`, contrary to
the spec's required always-write-history behaviour. -/
theorem nonzero_delta_history_never_recorded :
    (processTokenBalance ⟨0, 1, true, true⟩ (some zeroBalance)
        ⟨5, 0, 0, 0, 0, 5⟩).change = 5
    ∧ (processTokenBalance ⟨0, 1, true, true⟩ (some zeroBalance)
        ⟨5, 0, 0, 0, 0, 5⟩).upserted = true
    ∧ (processTokenBalance ⟨0, 1, true, true⟩ (some zeroBalance)
        ⟨5, 0, 0, 0, 0, 5⟩).notified = true
    ∧ (processTokenBalance ⟨0, 1, true, true⟩ (some zeroBalance)
        ⟨5, 0, 0, 0, 0, 5⟩).historyAppended = false := by
  refine ⟨rfl, rfl, ?_, rfl⟩
  unfold processTokenBalance
  dsimp only
  rw [Bool.and_eq_true, Bool.and_eq_true, Bool.and_eq_true]
  refine ⟨⟨⟨by decide, ?_⟩, rfl⟩, rfl⟩
  rw [decide_eq_true_eq]
  show (1 : ℚ) ≤ humanMagnitude 5 0
  rw [humanMagnitude_zero_decimals 5 (by norm_num)]
  push_cast
  norm_num

/-- C2: for a nonzero delta, the balance-change notification is sent if
and only if the human-unit magnitude the monitor computes reaches the
configured threshold (inclusive `>=`), the account has notifications
enabled, and a Discord client is configured — the monitor's global
notification gate. -/
theorem notification_iff_threshold_and_flags (ctx : MonitorCtx)
    (prev : Option Balance) (newBal : Balance)
    (hchange : (processTokenBalance ctx prev newBal).change ≠ 0) :
    (processTokenBalance ctx prev newBal).notified = true ↔
      (ctx.threshold ≤
          humanMagnitude (processTokenBalance ctx prev newBal).change
            ctx.decimals
        ∧ ctx.discordNotify = true ∧ ctx.discordConfigured = true) := by
  unfold processTokenBalance at hchange ⊢
  dsimp only at hchange ⊢
  rw [Bool.and_eq_true, Bool.and_eq_true, Bool.and_eq_true]
  rw [decide_eq_true_eq, decide_eq_true_eq]
  constructor
  · rintro ⟨⟨⟨_, h2⟩, h3⟩, h4⟩
    exact ⟨h2, h3, h4⟩
  · rintro ⟨h2, h3, h4⟩
    exact ⟨⟨⟨hchange, h2⟩, h3⟩, h4⟩

/-- witness for C2: previous total `0`, new total `5`, decimals `0`,
threshold `1`, both flags set — the delta is nonzero and the
equivalence is realised at a concrete input. -/
theorem notification_iff_threshold_and_flags_witness :
    (processTokenBalance ⟨0, 1, true, true⟩ (some zeroBalance)
        ⟨5, 0, 0, 0, 0, 5⟩).notified = true ↔
      ((1 : ℚ) ≤
          humanMagnitude
            (processTokenBalance ⟨0, 1, true, true⟩ (some zeroBalance)
              ⟨5, 0, 0, 0, 0, 5⟩).change 0
        ∧ true = true ∧ true = true) :=
  notification_iff_threshold_and_flags ⟨0, 1, true, true⟩
    (some zeroBalance) ⟨5, 0, 0, 0, 0, 5⟩ (by decide)

end AccountMonitor
